import Mathlib

/-!
Verification of the fractal computation and rendering engine
(`src/fractals.rs`, with its callers in `src/main.rs`).

Shallow embedding conventions:
* `u32` values are modelled as `ℕ` (with explicit `% 2^w` / saturation where
  Rust wrapping or saturating conversions occur);
* `f64`/`f32` values are modelled as exact `ℚ` where the code only does field
  arithmetic and comparisons, and as `ℝ` where it uses `sqrt`/`ln`/`exp`
  (the smoothing step); the floating-point norm test `|z| >= 2.0` is modelled
  by the equivalent exact test `normSq z >= 4`;
* fallible code returns `Except`/`Option`; a Rust panic is modelled as `none`;
* file/HTTP I/O, logging and wall-clock timing fields of the `Fractal` struct
  are not modelled (they do not affect the computed data).
-/

/-- An 8-bit RGB triple, as in `image::Rgb<u8>` / `(u8, u8, u8)`. -/
abbrev Rgb : Type := ℕ × ℕ × ℕ

/-- One colour palette entry: the Rust code stores palette entries as tuples
`(rel_index : f32, index : u32, comment : String, color : (u8,u8,u8))`
(`fractals.rs` lines 43-49 and 63). -/
structure PalEntry where
  rel_index : ℚ
  index : ℕ
  comment : String
  color : Rgb
deriving DecidableEq

/-- Error result enum (`fractals.rs` lines 23-26). -/
inductive FractalError where
  | NotGenerated
deriving DecidableEq

/-- The `Fractal` struct (`fractals.rs` lines 52-70).  The `settings`,
duration, and filename fields (pure I/O and timing observability) are
not modelled. -/
structure Fractal where
  rows : ℕ
  cols : ℕ
  mid_pt : ℚ × ℚ
  pt_div : ℚ
  max_its : ℕ
  left_lim : ℚ
  top_lim : ℚ
  escape_its : List (List ℕ)
  pt_lt : ℚ × ℚ
  col_palette : List PalEntry

/-- `Fractal::init` (`fractals.rs` lines 75-100): all numeric fields zero,
all containers empty. -/
def Fractal.init : Fractal where
  rows := 0
  cols := 0
  mid_pt := (0, 0)
  pt_div := 0
  max_its := 0
  left_lim := 0
  top_lim := 0
  escape_its := []
  pt_lt := (0, 0)
  col_palette := []

/-- Squared modulus of a complex number represented as a pair.
`px_fn.norm() >= 2.0` in the code is modelled as `4 ≤ normSq px_fn`,
and `mod_fn > e` as `Real.sqrt (normSq px_fn) > e`. -/
def normSq (z : ℚ × ℚ) : ℚ := z.1 * z.1 + z.2 * z.2

/-- Complex multiplication on pairs (as in `num_complex`). -/
def cmul (w z : ℚ × ℚ) : ℚ × ℚ := (w.1 * z.1 - w.2 * z.2, w.1 * z.2 + w.2 * z.1)

/-- The Mandelbrot orbit `z₀ = 0`, `z_{k+1} = z_k² + c`. -/
def orbit (c : ℚ × ℚ) : ℕ → ℚ × ℚ
  | 0 => (0, 0)
  | k + 1 => cmul (orbit c k) (orbit c k) + c

/-- The `while !diverges && (num_its < self.max_its)` loop of
`cal_row_divergence` (`fractals.rs` lines 229-236).  State: current `px_fn`,
current `num_its`; the fuel argument equals `max_its - num_its`, the number
of loop entries still allowed by the guard.  Returns the final `px_fn`,
`num_its` and the `diverges` flag. -/
def mandel_go (c : ℚ × ℚ) : ℕ → ℚ × ℚ → ℕ → (ℚ × ℚ) × ℕ × Bool
  | 0, z, n => (z, n, false)
  | fuel + 1, z, n =>
    let z2 := cmul z z + c
    if 4 ≤ normSq z2 then (z2, n, true) else mandel_go c fuel z2 (n + 1)

/-- The loop of `cal_row_divergence` started from `px_fn = 0`, `num_its = 1`
(`fractals.rs` lines 223-236); the guard `num_its < max_its` allows at most
`max_its - 1` executions of the body. -/
def mandel_loop (c : ℚ × ℚ) (maxIts : ℕ) : (ℚ × ℚ) × ℕ × Bool :=
  mandel_go c (maxIts - 1) (0, 0) 1

/-- The fractional-divergence term (`fractals.rs` lines 240-244):
`if mod_fn > e then ln (ln mod_fn) / ln 2 else 0`. -/
noncomputable def mu_log (modFn : ℝ) : ℝ :=
  if modFn > Real.exp 1 then Real.log (Real.log modFn) / Real.log 2 else 0

/-- Rust `f64 as u32`: rounds toward zero and saturates to `[0, 2^32 - 1]`.
`Nat.floor` is 0 on negative reals, matching the lower saturation. -/
noncomputable def f64_to_u32 (x : ℝ) : ℕ := min (2 ^ 32 - 1) ⌊x⌋₊

/-- The per-pixel computation of `cal_row_divergence`
(`fractals.rs` lines 220-251): run the escape loop, compute the smoothed
value `mu = num_its + 1 - mu_log`, clamp it to `max_its`, store `mu as u32`. -/
noncomputable def pixel_value (c : ℚ × ℚ) (maxIts : ℕ) : ℕ :=
  let r := mandel_loop c maxIts
  let modFn : ℝ := Real.sqrt ((normSq r.1 : ℚ) : ℝ)
  let mu : ℝ := (r.2.1 : ℝ) + 1 - mu_log modFn
  f64_to_u32 (if mu > (maxIts : ℝ) then (maxIts : ℝ) else mu)

/-- `Fractal::cal_row_divergence` (`fractals.rs` lines 206-258) as the row of
stored values.  The code walks `pt_row.re += pt_div` per column; with exact
arithmetic the point at column `col` is `st_c.re + col * pt_div`. -/
noncomputable def cal_row_divergence (f : Fractal) (st_c : ℚ × ℚ) : List ℕ :=
  (List.range f.cols).map fun (col : ℕ) =>
    pixel_value (st_c.1 + (col : ℚ) * f.pt_div, st_c.2) f.max_its

/-- `Fractal::generate_fractal` (`fractals.rs` lines 160-201): recompute
`escape_its` row by row, starting each row at `pt_lt` shifted down by
`pt_div * row` (line 172).  Rendering (file output) is not modelled; the
function always returns `Ok(())` so the `Result` is omitted here. -/
noncomputable def generate_fractal (f : Fractal) : Fractal :=
  { f with escape_its :=
      (List.range f.rows).map fun (row : ℕ) =>
        cal_row_divergence f (f.pt_lt.1, f.pt_lt.2 - f.pt_div * (row : ℚ)) }

/-- `Fractal::init_fractal_limits` (`fractals.rs` lines 117-127). -/
def init_fractal_limits (f : Fractal) : Fractal :=
  let ll := f.mid_pt.1 - ((f.cols : ℚ) / 2) * f.pt_div
  let tl := f.mid_pt.2 + ((f.rows : ℚ) / 2) * f.pt_div
  { f with left_lim := ll, top_lim := tl, pt_lt := (ll, tl),
           escape_its := List.replicate f.rows (List.replicate f.cols 0) }

/-- Rust `f32 as u32`: rounds toward zero and saturates to `[0, 2^32 - 1]`. -/
def ratToU32 (q : ℚ) : ℕ := if q < 0 then 0 else min (2 ^ 32 - 1) ⌊q⌋.toNat

/-- Rust `f32 as u8`: rounds toward zero and saturates to `[0, 255]`. -/
def ratToU8 (q : ℚ) : ℕ := if q < 0 then 0 else min 255 ⌊q⌋.toNat

/-- `Fractal::init_col_pallete` (`fractals.rs` lines 129-157).  The palette
file contents (deserialized `Root.palette`) are passed as `entries`; the file
read itself is I/O.  The code first copies the entries into `col_palette` and
then overwrites each `index` with `(rel_index * max_its as f32) as u32`
(lines 151-154); the net effect is this map. -/
def init_col_pallete (f : Fractal) (entries : List PalEntry) : Fractal :=
  { f with col_palette :=
      entries.map fun e =>
        { e with index := ratToU32 (e.rel_index * (f.max_its : ℚ)) } }

/-- `Fractal::recentre_fractal` (`fractals.rs` lines 261-286):
re-initialise the limits, then regenerate.  `generate_fractal` always
succeeds, so the `Ok`/`Err` wrapper is omitted. -/
noncomputable def recentre_fractal (f : Fractal) : Fractal :=
  generate_fractal (init_fractal_limits f)

/-- The `/recentre` endpoint (`main.rs` lines 216-282): set `mid_pt` to the
new centre, re-import the colour palette, then call `recentre_fractal`.
The anchor row/col hints are unused by the computation. -/
noncomputable def recentre (f : Fractal) (newRe newIm : ℚ)
    (paletteEntries : List PalEntry) : Fractal :=
  recentre_fractal
    (init_col_pallete { f with mid_pt := (newRe, newIm) } paletteEntries)

/-- Grid access `self.escape_its[x][y]` (`fractals.rs` line 389).  Rust
panics out of bounds; `getD` is only ever used here under dimension
hypotheses that put the indices in range. -/
def val (f : Fractal) (x y : ℕ) : ℕ := (f.escape_its.getD x []).getD y 0

/-- The per-bin count of `divergence_histogram` (`fractals.rs` lines
383-397): the number of grid cells `(x, y)`, `x < rows`, `y < cols`, whose
stored value equals `its`. -/
def its_cnt (f : Fractal) (its : ℕ) : ℕ :=
  ((List.range f.cols).map fun y =>
    (List.range f.rows).countP fun x => val f x y == its).sum

/-- The `bins` series of the histogram JSON (`fractals.rs` lines 382-420):
the iteration values `0, 1, …, max_its - 1`. -/
def histogram_bins (f : Fractal) : List ℕ := List.range f.max_its

/-- The `counts` series of the histogram JSON, parallel to the bins. -/
def histogram_counts (f : Fractal) : List ℕ :=
  (List.range f.max_its).map (its_cnt f)

/-- `Fractal::divergence_histogram` (`fractals.rs` lines 362-427): computes
the bins/counts series and returns `Ok` unconditionally (the function body
has no error path).  The JSON string stored in `histogram_data_json` is
modelled by the pair of series itself. -/
def divergence_histogram (f : Fractal) :
    Except FractalError (List ℕ × List ℕ) :=
  Except.ok (histogram_bins f, histogram_counts f)

/-- Wrapping `usize` subtraction of 1, as in the loop bound
`col_pal.len() - 1` of `det_px_col` (`fractals.rs` line 436): on an empty
palette the subtraction wraps around to `2^64 - 1`. -/
def usize_sub_one (n : ℕ) : ℕ := (n + (2 ^ 64 - 1)) % 2 ^ 64

/-- The linear interpolation of `det_px_col` (`fractals.rs` lines 442-448),
reached only when `lo.index < its ≤ hi.index` (so the `u32` subtractions do
not underflow). -/
def interp (its : ℕ) (lo hi : PalEntry) : Rgb :=
  let t : ℚ := ((its - lo.index : ℕ) : ℚ) / ((hi.index - lo.index : ℕ) : ℚ)
  (ratToU8 ((1 - t) * (lo.color.1 : ℚ) + t * (hi.color.1 : ℚ)),
   ratToU8 ((1 - t) * (lo.color.2.1 : ℚ) + t * (hi.color.2.1 : ℚ)),
   ratToU8 ((1 - t) * (lo.color.2.2 : ℚ) + t * (hi.color.2.2 : ℚ)))

/-- The `for i in 0..col_pal.len() - 1` search of `det_px_col`
(`fractals.rs` lines 436-450).  `i` is the current index, the fuel argument
is the number of loop iterations left (`bound - i`).  `none` models a panic
(index out of bounds), `some none` a normal loop exit without a match,
`some (some c)` an early return with the interpolated colour. -/
def find_pair (its : ℕ) (pal : List PalEntry) :
    ℕ → ℕ → Option (Option Rgb)
  | _, 0 => some none
  | i, fuel + 1 =>
    match pal.get? i, pal.get? (i + 1) with
    | some lo, some hi =>
      if lo.index < its ∧ its ≤ hi.index then some (some (interp its lo hi))
      else find_pair its pal (i + 1) fuel
    | _, _ => none

/-- The fall-through tail of `det_px_col` (`fractals.rs` lines 452-461):
after the scan exits normally, return the last palette colour if `its`
exceeds the last boundary, else the default black. -/
def fall_through (its : ℕ) (col_pal : List PalEntry) : Rgb :=
  match col_pal.getLast? with
  | some last => if last.index < its then last.color else (0, 0, 0)
  | none => (0, 0, 0)

/-- `det_px_col` (`fractals.rs` lines 432-462): scan consecutive boundary
pairs.  A panic in the scan (`none`, empty palette) propagates; an early
return (`some (some c)`) yields the interpolated colour; a normal loop
exit (`some none`) falls through to `fall_through`. -/
def det_px_col (its : ℕ) (col_pal : List PalEntry) : Option Rgb :=
  (find_pair its col_pal 0 (usize_sub_one col_pal.length)).map fun r =>
    r.getD (fall_through its col_pal)

/-! ### Concrete states used in witnesses and counterexamples -/

/-- A small viewport: 2 x 3 grid, centre (1, 1), pixel pitch 1/2. -/
def vpF : Fractal :=
  { Fractal.init with rows := 2, cols := 3, pt_div := 1 / 2, mid_pt := (1, 1) }

/-- A generated 1 x 1 grid whose single cell stores `max_its = 1` — exactly
what the engine produces for any bounded pixel (see C5/C7). -/
def histF : Fractal :=
  { Fractal.init with rows := 1, cols := 1, max_its := 1, escape_its := [[1]] }

/-- A state whose iteration cap is 2, for palette rescaling examples. -/
def capF : Fractal := { Fractal.init with max_its := 2 }

/-- A palette entry with relative position 3/4 (exactly representable in
`f32`, as are 2.0 and their product 1.5). -/
def relEntry : PalEntry :=
  { rel_index := 3 / 4, index := 0, comment := "mid", color := (0, 0, 0) }

/-- A palette entry with relative position 1 (the usual last stop). -/
def topEntry : PalEntry :=
  { rel_index := 1, index := 0, comment := "top", color := (10, 20, 30) }

/-- A red palette entry with boundary 0. -/
def redEntry : PalEntry :=
  { rel_index := 0, index := 0, comment := "red", color := (255, 0, 0) }

/-- A blue palette entry with boundary 10. -/
def blueEntry : PalEntry :=
  { rel_index := 1, index := 10, comment := "blue", color := (0, 0, 255) }

/-- A two-entry palette: red at boundary 0, blue at boundary 10. -/
def palRB : List PalEntry := [redEntry, blueEntry]

/-! ### Lemmas about the escape loop and the per-pixel value -/

/-- If the whole orbit stays strictly inside the escape radius, the loop
never sets `diverges`: it runs its full fuel and ends at `orbit c (j + fuel)`
with `num_its = j + fuel + 1`. -/
theorem mandel_go_bounded (c : ℚ × ℚ) (fuel : ℕ) : ∀ (j : ℕ),
    (∀ k, k ≤ j + fuel → normSq (orbit c k) < 4) →
    mandel_go c fuel (orbit c j) (j + 1) =
      (orbit c (j + fuel), j + fuel + 1, false) := by
  induction fuel with
  | zero => intro j _; simp [mandel_go]
  | succ fuel ih =>
    intro j h
    have hz : cmul (orbit c j) (orbit c j) + c = orbit c (j + 1) := rfl
    have hlt : ¬ (4 ≤ normSq (orbit c (j + 1))) :=
      not_le.mpr (h (j + 1) (by omega))
    have hrec := ih (j + 1) (fun k hk => h k (by omega))
    have harith : j + 1 + fuel = j + (fuel + 1) := by omega
    rw [harith] at hrec
    simp only [mandel_go, hz, hlt, if_false]
    exact hrec

/-- `Rust f64 as u32` is monotone below a `u32`-representable bound. -/
theorem f64_to_u32_le (x : ℝ) (m : ℕ) (h : x ≤ (m : ℝ)) : f64_to_u32 x ≤ m :=
  le_trans (min_le_right _ _)
    (le_trans (Nat.floor_le_floor h) (by simp))

/-- A real below 2 is below Euler's number, so the fractional term is 0. -/
theorem mu_log_eq_zero_of_lt_two (x : ℝ) (hx : x < 2) : mu_log x = 0 := by
  have he : (2.7182818283 : ℝ) < Real.exp 1 := Real.exp_one_gt_d9
  have : ¬ (x > Real.exp 1) := by push_cast at he ⊢; nlinarith
  simp [mu_log, this]

/-- If the loop ends at `(z, n, b)` with `normSq z < 4`, the stored pixel
value is the clamped cast of `n + 1` (the fractional term vanishes). -/
theorem pixel_value_eq_of_loop (c : ℚ × ℚ) (maxIts : ℕ) (z : ℚ × ℚ) (n : ℕ)
    (b : Bool) (hl : mandel_loop c maxIts = (z, n, b))
    (hz : normSq z < 4) :
    pixel_value c maxIts =
      f64_to_u32 (if ((n : ℝ) + 1 : ℝ) > (maxIts : ℝ) then (maxIts : ℝ)
                  else ((n : ℝ) + 1 : ℝ)) := by
  have hcast : ((normSq z : ℚ) : ℝ) < 4 := by exact_mod_cast hz
  have hsqrt : Real.sqrt ((normSq z : ℚ) : ℝ) < 2 :=
    (Real.sqrt_lt' (by norm_num)).mpr (by nlinarith)
  have hmu : mu_log (Real.sqrt ((normSq z : ℚ) : ℝ)) = 0 :=
    mu_log_eq_zero_of_lt_two _ hsqrt
  simp only [pixel_value, hl, hmu, sub_zero]

/-- CLAIM C6 — for every viewport the per-pixel computation stores a value
between 0 and `max_iterations`: the smoothed value is clamped to
`max_iterations` before the saturating `as u32` cast, and the cast is
monotone, so every cell of the generated grid is `≤ max_its`
(non-negativity is inherent to the unsigned type). -/
theorem grid_value_le_max_its (f : Fractal) (row col : ℕ) :
    ((generate_fractal f).escape_its.getD row []).getD col 0 ≤ f.max_its := by
  have hpix : ∀ (c : ℚ × ℚ), pixel_value c f.max_its ≤ f.max_its := by
    intro c
    simp only [pixel_value]
    refine f64_to_u32_le _ _ ?_
    split
    · exact le_refl _
    · next h => exact not_lt.mp h
  simp only [generate_fractal, List.getD_eq_getElem?_getD, List.getElem?_map]
  rcases lt_or_ge row f.rows with hr | hr
  · rw [List.getElem?_range hr]
    simp only [Option.map_some', Option.getD_some, cal_row_divergence,
      List.getElem?_map]
    rcases lt_or_ge col f.cols with hc | hc
    · rw [List.getElem?_range hc]
      simpa using hpix _
    · have hnone : (List.range f.cols)[col]? = none :=
        List.getElem?_eq_none (by simpa using hc)
      rw [hnone]
      simp
  · have hnone : (List.range f.rows)[row]? = none :=
      List.getElem?_eq_none (by simpa using hr)
    rw [hnone]
    simp

/-- CLAIM C7 — every bounded point stores its raw iteration count: if the
orbit of `c` never reaches `|z| ≥ 2` (i.e. `normSq ≥ 4`) within
`max_iterations` iterations, the loop never sets `diverges`, the final
`|px_fn|` is below Euler's number so the fractional term is 0, and the
clamped value stored in the grid is exactly `max_iterations`. -/
theorem bounded_point_stores_max_its (c : ℚ × ℚ) (maxIts : ℕ)
    (hm : maxIts < 2 ^ 32)
    (hb : ∀ k, k ≤ maxIts → normSq (orbit c k) < 4) :
    pixel_value c maxIts = maxIts := by
  cases maxIts with
  | zero =>
    have hl : mandel_loop c 0 = ((0, 0), 1, false) := rfl
    rw [pixel_value_eq_of_loop c 0 (0, 0) 1 false hl (by norm_num [normSq])]
    norm_num [f64_to_u32]
  | succ m =>
    have hl : mandel_loop c (m + 1) = (orbit c m, m + 1, false) := by
      have hgo := mandel_go_bounded c m 0 (fun k hk => hb k (by omega))
      simpa [mandel_loop] using hgo
    rw [pixel_value_eq_of_loop c (m + 1) (orbit c m) (m + 1) false hl
      (hb m (by omega))]
    have hgt : (((m + 1 : ℕ) : ℝ) + 1 : ℝ) > ((m + 1 : ℕ) : ℝ) := by
      push_cast; linarith
    rw [if_pos hgt]
    unfold f64_to_u32
    rw [Nat.floor_natCast]
    omega

/-- Witness for C7: the origin never escapes; with `max_its = 2` the stored
value is 2. -/
theorem bounded_point_stores_max_its_witness :
    (∀ k, k ≤ 2 → normSq (orbit ((0 : ℚ), (0 : ℚ)) k) < 4) ∧
      pixel_value ((0 : ℚ), (0 : ℚ)) 2 = 2 :=
  ⟨by intro k hk; interval_cases k <;>
      norm_num [orbit, normSq, cmul, Prod.mk_add_mk],
   bounded_point_stores_max_its ((0 : ℚ), (0 : ℚ)) 2 (by norm_num)
    (by intro k hk; interval_cases k <;>
      norm_num [orbit, normSq, cmul, Prod.mk_add_mk])⟩

/-- CLAIM C5 (amended) — with `max_iterations = 1` the loop guard
`num_its < max_its` fails immediately (`num_its` starts at 1), so the body
`z ← z² + c` never executes: the loop returns the initial state
`(0, 1, no divergence)` and every pixel stores exactly 1 (the smoothed
value 2 clamped down to `max_its`). -/
theorem max_its_one_reports_one (c : ℚ × ℚ) :
    mandel_loop c 1 = ((0, 0), 1, false) ∧ pixel_value c 1 = 1 := by
  have hl : mandel_loop c 1 = ((0, 0), 1, false) := rfl
  refine ⟨hl, ?_⟩
  rw [pixel_value_eq_of_loop c 1 (0, 0) 1 false hl (by norm_num [normSq])]
  norm_num [f64_to_u32]

/-- CLAIM C5 counterexample — at `c = 3` (with `|c| = 3 ≥ 2`) and
`max_iterations = 1` the loop performs zero iterations: the final `px_fn`
is still the initial 0 and `diverges` is false, even though the single
iteration `z ← z² + c` promised by the claim would have produced `z = c`
with `normSq ≥ 4` and flagged divergence. -/
theorem max_its_one_no_iteration_cex :
    mandel_loop ((3 : ℚ), (0 : ℚ)) 1 = ((0, 0), 1, false) ∧
      4 ≤ normSq (cmul ((0 : ℚ), (0 : ℚ)) ((0 : ℚ), (0 : ℚ)) +
        ((3 : ℚ), (0 : ℚ))) :=
  ⟨rfl, by norm_num [normSq, cmul, Prod.mk_add_mk]⟩

/-! ### Viewport limits and recentring -/

/-- CLAIM C8 — `init_fractal_limits` derives the top-left sample point as
`top_left.re = center.re - (cols/2)*pitch` and
`top_left.im = center.im + (rows/2)*pitch`; the code computes exactly these
expressions (`fractals.rs` lines 119-122), so the equality is exact. -/
theorem init_limits_top_left (f : Fractal)
    (hr : 0 < f.rows) (hc : 0 < f.cols) (hp : 0 < f.pt_div) :
    (init_fractal_limits f).pt_lt.1 =
        f.mid_pt.1 - ((f.cols : ℚ) / 2) * f.pt_div ∧
      (init_fractal_limits f).pt_lt.2 =
        f.mid_pt.2 + ((f.rows : ℚ) / 2) * f.pt_div :=
  ⟨rfl, rfl⟩

/-- Witness for C8 on the concrete 2 x 3 viewport. -/
theorem init_limits_top_left_witness :
    (0 < vpF.rows ∧ 0 < vpF.cols ∧ 0 < vpF.pt_div) ∧
      ((init_fractal_limits vpF).pt_lt.1 =
          vpF.mid_pt.1 - ((vpF.cols : ℚ) / 2) * vpF.pt_div ∧
        (init_fractal_limits vpF).pt_lt.2 =
          vpF.mid_pt.2 + ((vpF.rows : ℚ) / 2) * vpF.pt_div) :=
  ⟨⟨by norm_num [vpF], by norm_num [vpF], by norm_num [vpF, Fractal.init]⟩,
   init_limits_top_left vpF (by norm_num [vpF]) (by norm_num [vpF])
     (by norm_num [vpF, Fractal.init])⟩

/-- CLAIM C9 — the recentre pipeline (`main.rs` `/recentre` handler plus
`Fractal::recentre_fractal`) replaces only the centre: rows, cols, pixel
pitch and the iteration cap are untouched, and the limits are recomputed
from the new centre (by `init_fractal_limits`) before the grid is
regenerated. -/
theorem recentre_preserves_geometry (f : Fractal) (newRe newIm : ℚ)
    (pal : List PalEntry) :
    (recentre f newRe newIm pal).rows = f.rows ∧
      (recentre f newRe newIm pal).cols = f.cols ∧
      (recentre f newRe newIm pal).pt_div = f.pt_div ∧
      (recentre f newRe newIm pal).max_its = f.max_its ∧
      (recentre f newRe newIm pal).mid_pt = (newRe, newIm) ∧
      (recentre f newRe newIm pal).pt_lt =
        (newRe - ((f.cols : ℚ) / 2) * f.pt_div,
         newIm + ((f.rows : ℚ) / 2) * f.pt_div) :=
  ⟨rfl, rfl, rfl, rfl, rfl, rfl⟩

/-! ### The histogram -/

/-- CLAIM C3 counterexample — calling `divergence_histogram` on the
initial state (no grid ever generated: `Fractal::init`) does not signal
`NotGenerated`; it succeeds. -/
theorem divergence_histogram_init_ok_cex :
    divergence_histogram Fractal.init ≠
      Except.error FractalError.NotGenerated := by
  simp [divergence_histogram]

/-- CLAIM C3 (amended) — `divergence_histogram` has no error path at all:
for every state, also before any generation, it returns `Ok` with the
dense bins/counts series of length `max_its` (on the initial state,
`max_its = 0`, both series are empty). -/
theorem divergence_histogram_always_ok (f : Fractal) :
    ∃ bins counts, divergence_histogram f = Except.ok (bins, counts) ∧
      bins.length = f.max_its ∧ counts.length = f.max_its :=
  ⟨_, _, rfl, by simp [histogram_bins], by simp [histogram_counts]⟩

/-- Splitting a `< n + 1` count into a `< n` count and an `= n` count. -/
theorem countP_lt_succ (l : List ℕ) (v : ℕ → ℕ) (n : ℕ) :
    l.countP (fun x => decide (v x < n + 1)) =
      l.countP (fun x => decide (v x < n)) +
        l.countP (fun x => v x == n) := by
  induction l with
  | nil => rfl
  | cons a t ih =>
    simp only [List.countP_cons, ih]
    by_cases h1 : v a < n <;> by_cases h2 : v a = n <;>
      simp [h1, h2, Nat.lt_succ_iff_lt_or_eq] <;> omega

/-- Sum of a pointwise sum of two `ℕ`-valued maps. -/
theorem sum_map_add_nat {α : Type} (l : List α) (g h : α → ℕ) :
    (l.map fun a => g a + h a).sum = (l.map g).sum + (l.map h).sum := by
  induction l with
  | nil => rfl
  | cons a t ih =>
    simp only [List.map_cons, List.sum_cons, ih]
    omega

/-- Sum of a constant `ℕ`-valued map. -/
theorem sum_map_const_nat {α : Type} (l : List α) (m : ℕ) :
    (l.map fun _ => m).sum = l.length * m := by
  induction l with
  | nil => simp
  | cons a t ih =>
    simp only [List.map_cons, List.sum_cons, ih, List.length_cons]
    ring

/-- The sum of the first `n` histogram bins counts exactly the cells whose
value is `< n` (each cell with value `v < n` is counted once, in bin `v`). -/
theorem counts_sum_eq_countP_lt (f : Fractal) (n : ℕ) :
    ((List.range n).map (its_cnt f)).sum =
      ((List.range f.cols).map fun y =>
        (List.range f.rows).countP fun x => decide (val f x y < n)).sum := by
  induction n with
  | zero => simp
  | succ n ih =>
    rw [List.range_succ, List.map_append, List.sum_append]
    simp only [List.map_cons, List.map_nil, List.sum_cons, List.sum_nil,
      Nat.add_zero]
    rw [ih]
    have hsplit : ∀ y : ℕ,
        ((List.range f.rows).countP fun x => decide (val f x y < n + 1)) =
          ((List.range f.rows).countP fun x => decide (val f x y < n)) +
            ((List.range f.rows).countP fun x => val f x y == n) :=
      fun y => countP_lt_succ _ _ _
    simp only [hsplit, sum_map_add_nat]
    simp only [its_cnt]

/-- CLAIM C1 (amended) — for a generated `rows x cols` grid whose values all
lie in `[0, max_its]`, the histogram's counts sum to `rows * cols` MINUS the
number of cells that store exactly `max_its` (stated additively): the bins
only range over `[0, max_its)` (`for its in 0..self.max_its`), so cells at
the cap — every bounded pixel — are never counted. -/
theorem histogram_counts_sum_eq (f : Fractal)
    (hlen : f.escape_its.length = f.rows)
    (hrow : ∀ r ∈ f.escape_its, r.length = f.cols)
    (hval : ∀ x < f.rows, ∀ y < f.cols, val f x y ≤ f.max_its) :
    (histogram_counts f).sum + its_cnt f f.max_its = f.rows * f.cols := by
  rw [histogram_counts, counts_sum_eq_countP_lt]
  have hy : ∀ y ∈ List.range f.cols,
      ((List.range f.rows).countP fun x => decide (val f x y < f.max_its)) +
        ((List.range f.rows).countP fun x => val f x y == f.max_its) =
        f.rows := by
    intro y hyc
    rw [← countP_lt_succ]
    rw [List.countP_eq_length.mpr]
    · exact List.length_range f.rows
    · intro x hx
      have hxr : x < f.rows := List.mem_range.mp hx
      have hyc2 : y < f.cols := List.mem_range.mp hyc
      simpa using Nat.lt_succ_of_le (hval x hxr y hyc2)
  calc ((List.range f.cols).map fun y =>
          (List.range f.rows).countP fun x =>
            decide (val f x y < f.max_its)).sum + its_cnt f f.max_its
      = ((List.range f.cols).map fun y =>
          ((List.range f.rows).countP fun x =>
            decide (val f x y < f.max_its)) +
          ((List.range f.rows).countP fun x =>
            val f x y == f.max_its)).sum := by
        rw [sum_map_add_nat, its_cnt]
    _ = ((List.range f.cols).map fun _ => f.rows).sum := by
        rw [List.map_congr_left hy]
    _ = f.rows * f.cols := by
        rw [sum_map_const_nat, List.length_range, Nat.mul_comm]

/-- Witness for C1 (amended): the 1 x 1 grid `[[1]]` with `max_its = 1`
has one cell at the cap; `0 + 1 = 1 * 1`. -/
theorem histogram_counts_sum_eq_witness :
    (histF.escape_its.length = histF.rows ∧
      (∀ r ∈ histF.escape_its, r.length = histF.cols) ∧
      (∀ x < histF.rows, ∀ y < histF.cols, val histF x y ≤ histF.max_its)) ∧
      (histogram_counts histF).sum + its_cnt histF histF.max_its =
        histF.rows * histF.cols :=
  ⟨⟨by decide, by decide, by decide⟩,
   histogram_counts_sum_eq histF (by decide) (by decide) (by decide)⟩

/-- CLAIM C1 counterexample — the 1 x 1 grid `[[1]]` with `max_its = 1` has
every cell value in `[0, max_its]`, yet the histogram counts sum to 0, not
`rows * cols = 1`: bin 1 (= `max_its`) is never emitted. -/
theorem histogram_sum_cex :
    (∀ x < histF.rows, ∀ y < histF.cols, val histF x y ≤ histF.max_its) ∧
      (histogram_counts histF).sum ≠ histF.rows * histF.cols :=
  ⟨by decide, by decide⟩

/-! ### Palette rescaling -/

/-- CLAIM C4 counterexample — rescaling the entry with relative position
3/4 against `max_its = 2` (all quantities exact in `f32`) stores boundary
`trunc(1.5) = 1`, whereas the claimed `round(1.5)` is 2. -/
theorem rescale_round_cex :
    (init_col_pallete capF [relEntry]).col_palette.map PalEntry.index ≠
      [(round (relEntry.rel_index * (capF.max_its : ℚ))).toNat] := by
  have hq : relEntry.rel_index * (capF.max_its : ℚ) = 3 / 2 := by
    norm_num [relEntry, capF, Fractal.init]
  have hfloor : ⌊(3 / 2 : ℚ)⌋ = 1 := Int.floor_eq_iff.mpr (by norm_num)
  have hround : round (3 / 2 : ℚ) = 2 := by
    rw [round_eq]
    norm_num
  simp only [init_col_pallete, List.map_cons, List.map_nil, ratToU32, hq,
    hfloor, hround]
  rw [if_neg (by norm_num : ¬ ((3 : ℚ) / 2 < 0))]
  decide

/-- CLAIM C4 (amended) — `init_col_pallete` rescales each entry's absolute
boundary to the TRUNCATION `⌊relative_position * max_iterations⌋` (the Rust
`as u32` cast, saturating at the `u32` bounds), not the nearest integer. -/
theorem rescale_truncates (f : Fractal) (entries : List PalEntry) (i : ℕ)
    (e : PalEntry) (he : entries.get? i = some e)
    (h0 : 0 ≤ e.rel_index)
    (hub : e.rel_index * (f.max_its : ℚ) ≤ 2 ^ 32 - 1) :
    (init_col_pallete f entries).col_palette.get? i =
      some { e with index := ⌊e.rel_index * (f.max_its : ℚ)⌋.toNat } := by
  simp only [init_col_pallete, List.get?_eq_getElem?, List.getElem?_map]
  rw [List.get?_eq_getElem?] at he
  rw [he, Option.map_some']
  have hq0 : (0 : ℚ) ≤ e.rel_index * (f.max_its : ℚ) :=
    mul_nonneg h0 (by positivity)
  have hnlt : ¬ (e.rel_index * (f.max_its : ℚ) < 0) := not_lt.mpr hq0
  have hfl : ⌊e.rel_index * (f.max_its : ℚ)⌋ ≤ 2 ^ 32 - 1 := by
    have h2 : ⌊e.rel_index * (f.max_its : ℚ)⌋ ≤ ⌊((2 ^ 32 - 1 : ℤ) : ℚ)⌋ := by
      apply Int.floor_le_floor
      exact_mod_cast hub
    simpa using h2
  have hmin : min (2 ^ 32 - 1) ⌊e.rel_index * (f.max_its : ℚ)⌋.toNat =
      ⌊e.rel_index * (f.max_its : ℚ)⌋.toNat := by
    apply Nat.min_eq_right
    omega
  rw [ratToU32, if_neg hnlt, hmin]

/-- Witness for C4 (amended): the relative position 1 entry against
`max_its = 2` gets boundary `⌊2⌋ = 2`. -/
theorem rescale_truncates_witness :
    ([topEntry].get? 0 = some topEntry ∧ 0 ≤ topEntry.rel_index ∧
      topEntry.rel_index * (capF.max_its : ℚ) ≤ 2 ^ 32 - 1) ∧
      (init_col_pallete capF [topEntry]).col_palette.get? 0 =
        some { topEntry with
          index := ⌊topEntry.rel_index * (capF.max_its : ℚ)⌋.toNat } :=
  ⟨⟨rfl, by norm_num [topEntry], by norm_num [topEntry, capF, Fractal.init]⟩,
   rescale_truncates capF [topEntry] 0 topEntry rfl
     (by norm_num [topEntry])
     (by norm_num [topEntry, capF, Fractal.init])⟩

/-! ### Pixel colour lookup -/

/-- The wrapped loop bound `col_pal.len() - 1` is ordinary subtraction for
palettes that are nonempty (and of `usize`-representable length). -/
theorem usize_sub_one_eq (n : ℕ) (h1 : 1 ≤ n) (h2 : n < 2 ^ 64) :
    usize_sub_one n = n - 1 := by
  unfold usize_sub_one
  omega

/-- On the empty palette the loop bound wraps to `2^64 - 1` and the first
index access `col_pal[0]` is already out of bounds: the loop panics. -/
theorem find_pair_nil (its : ℕ) (i fuel : ℕ) (h : fuel ≠ 0) :
    find_pair its ([] : List PalEntry) i fuel = none := by
  cases fuel with
  | zero => exact absurd rfl h
  | succ fuel => rfl

/-- With the in-range loop bound `len - 1`, every index access of the scan
is in bounds, so the loop never panics. -/
theorem find_pair_isSome (its : ℕ) (pal : List PalEntry) :
    ∀ (fuel j : ℕ), j + fuel ≤ pal.length - 1 →
      ∃ r, find_pair its pal j fuel = some r := by
  intro fuel
  induction fuel with
  | zero => exact fun j _ => ⟨none, rfl⟩
  | succ fuel ih =>
    intro j hj
    have hj0 : j < pal.length := by omega
    have hj1 : j + 1 < pal.length := by omega
    simp only [find_pair, List.get?_eq_get hj0, List.get?_eq_get hj1]
    split
    · exact ⟨_, rfl⟩
    · exact ih (j + 1) (by omega)

/-- CLAIM C10 — on every nonempty palette `det_px_col` returns a colour
(total, with the black fallback when no consecutive pair matches); on the
empty palette the loop bound `col_pal.len() - 1` underflows and the lookup
panics (modelled as `none`), so non-emptiness is a required precondition. -/
theorem det_px_col_total_nonempty (pal : List PalEntry) (its : ℕ)
    (hne : pal ≠ []) (hlen : pal.length < 2 ^ 64) :
    (det_px_col its pal).isSome = true ∧
      det_px_col its ([] : List PalEntry) = none := by
  constructor
  · have hlen1 : 1 ≤ pal.length := List.length_pos.mpr hne
    have hb : usize_sub_one pal.length = pal.length - 1 :=
      usize_sub_one_eq _ hlen1 hlen
    obtain ⟨r, hr⟩ := find_pair_isSome its pal (pal.length - 1) 0 (by omega)
    unfold det_px_col
    rw [hb, hr, Option.map_some']
    rfl
  · have hz : usize_sub_one (List.length ([] : List PalEntry)) ≠ 0 := by
      norm_num [usize_sub_one]
    unfold det_px_col
    rw [find_pair_nil its 0 _ hz]
    rfl

/-- Witness for C10 on the two-entry palette. -/
theorem det_px_col_total_nonempty_witness :
    (palRB ≠ [] ∧ palRB.length < 2 ^ 64) ∧
      ((det_px_col 5 palRB).isSome = true ∧
        det_px_col 5 ([] : List PalEntry) = none) :=
  ⟨⟨by simp [palRB], by norm_num [palRB]⟩,
   det_px_col_total_nonempty palRB 5 (by simp [palRB]) (by norm_num [palRB])⟩

/-- CLAIM C2 counterexample — the lookup at the FIRST entry's boundary does
not return that entry's colour: the matching condition requires
`its > lower_bound` strictly, so `its = 0` (the first boundary of `palRB`)
matches no pair and falls through to black `(0,0,0)`, not red `(255,0,0)`. -/
theorem det_px_col_first_boundary_cex :
    det_px_col 0 palRB ≠ some (255, 0, 0) := by
  decide

/-- Casting an 8-bit channel value through the Rust `f32 as u8` conversion
returns it unchanged. -/
theorem ratToU8_natCast (n : ℕ) (h : n ≤ 255) : ratToU8 ((n : ℚ)) = n := by
  rw [ratToU8, if_neg (not_lt.mpr (Nat.cast_nonneg n)), Int.floor_natCast]
  omega

/-- At the exact upper boundary the interpolation parameter is
`t = (hi - lo)/(hi - lo) = 1`, so every channel collapses to the upper
entry's channel, and the `as u8` cast returns it unchanged. -/
theorem interp_at_upper (lo hi : PalEntry) (hlt : lo.index < hi.index)
    (hr : hi.color.1 ≤ 255) (hg : hi.color.2.1 ≤ 255)
    (hb : hi.color.2.2 ≤ 255) :
    interp hi.index lo hi = hi.color := by
  have hden : ((hi.index - lo.index : ℕ) : ℚ) ≠ 0 := by
    exact_mod_cast Nat.sub_ne_zero_of_lt hlt
  have ht : ((hi.index - lo.index : ℕ) : ℚ) /
      ((hi.index - lo.index : ℕ) : ℚ) = 1 := div_self hden
  simp only [interp, ht, sub_self, zero_mul, one_mul, zero_add]
  rw [ratToU8_natCast _ hr, ratToU8_natCast _ hg, ratToU8_natCast _ hb]

/-- For a strictly sorted palette and `its = hi.index` (the boundary of the
entry at position `i + 1`), the scan skips every earlier pair (the upper
bound there is below `its`) and fires at pair `(i, i + 1)`. -/
theorem find_pair_at_boundary (pal : List PalEntry) (i : ℕ) (lo hi : PalEntry)
    (hsorted : pal.Pairwise fun a b => a.index < b.index)
    (hlo : pal.get? i = some lo) (hhi : pal.get? (i + 1) = some hi) :
    ∀ (d j : ℕ), j + d = i →
      find_pair hi.index pal j (pal.length - 1 - j) =
        some (some (interp hi.index lo hi)) := by
  have hi1 : i + 1 < pal.length := (List.get?_eq_some.mp hhi).1
  have hlolt : lo.index < hi.index := by
    obtain ⟨h1, hg1⟩ := List.get?_eq_some.mp hlo
    obtain ⟨h2, hg2⟩ := List.get?_eq_some.mp hhi
    have hp := List.pairwise_iff_get.mp hsorted ⟨i, h1⟩ ⟨i + 1, h2⟩
      (Fin.mk_lt_mk.mpr (Nat.lt_succ_self i))
    rwa [hg1, hg2] at hp
  intro d
  induction d with
  | zero =>
    intro j hj
    have hji : j = i := by omega
    subst hji
    obtain ⟨k, hk⟩ : ∃ k, pal.length - 1 - j = k + 1 :=
      ⟨pal.length - 2 - j, by omega⟩
    rw [hk]
    simp only [find_pair, hlo, hhi]
    rw [if_pos ⟨hlolt, le_refl hi.index⟩]
  | succ d ihd =>
    intro j hj
    have hjlen0 : j < pal.length := by omega
    have hjlen : j + 1 < pal.length := by omega
    obtain ⟨k, hk⟩ : ∃ k, pal.length - 1 - j = k + 1 :=
      ⟨pal.length - 2 - j, by omega⟩
    rw [hk]
    have hej := List.get?_eq_get hjlen0
    have hej1 := List.get?_eq_get hjlen
    simp only [find_pair, hej, hej1]
    have hlt2 : (pal.get ⟨j + 1, hjlen⟩).index < hi.index := by
      obtain ⟨h2, hg2⟩ := List.get?_eq_some.mp hhi
      have hp := List.pairwise_iff_get.mp hsorted ⟨j + 1, hjlen⟩ ⟨i + 1, h2⟩
        (Fin.mk_lt_mk.mpr (by omega))
      rwa [hg2] at hp
    rw [if_neg (fun hcond => absurd hcond.2 (not_le.mpr hlt2))]
    have hk2 : k = pal.length - 1 - (j + 1) := by omega
    rw [hk2]
    exact ihd (j + 1) (by omega)

/-- CLAIM C2 (amended) — for a palette with strictly ascending boundaries,
the colour lookup at the exact boundary of any entry OTHER THAN THE FIRST
(the entry at position `i + 1`, with its 8-bit channels) returns exactly
that entry's colour, with no interpolation drift; the first entry's
boundary instead falls through to black (see the counterexample), because
the matching condition requires `its > lower_bound` strictly. -/
theorem det_px_col_boundary_exact (pal : List PalEntry) (i : ℕ)
    (lo hi : PalEntry) (hlen : pal.length < 2 ^ 64)
    (hsorted : pal.Pairwise fun a b => a.index < b.index)
    (hlo : pal.get? i = some lo) (hhi : pal.get? (i + 1) = some hi)
    (hr : hi.color.1 ≤ 255) (hg : hi.color.2.1 ≤ 255)
    (hb : hi.color.2.2 ≤ 255) :
    det_px_col hi.index pal = some hi.color := by
  have hi1 : i + 1 < pal.length := (List.get?_eq_some.mp hhi).1
  have hlolt : lo.index < hi.index := by
    obtain ⟨h1, hg1⟩ := List.get?_eq_some.mp hlo
    obtain ⟨h2, hg2⟩ := List.get?_eq_some.mp hhi
    have hp := List.pairwise_iff_get.mp hsorted ⟨i, h1⟩ ⟨i + 1, h2⟩
      (Fin.mk_lt_mk.mpr (Nat.lt_succ_self i))
    rwa [hg1, hg2] at hp
  have hfind := find_pair_at_boundary pal i lo hi hsorted hlo hhi i 0 (by omega)
  rw [Nat.sub_zero] at hfind
  unfold det_px_col
  rw [usize_sub_one_eq _ (by omega) hlen, hfind, Option.map_some',
    Option.getD_some, interp_at_upper lo hi hlolt hr hg hb]

/-- Witness for C2 (amended): on the two-entry palette the lookup at the
second entry's boundary 10 returns exactly blue. -/
theorem det_px_col_boundary_exact_witness :
    (palRB.length < 2 ^ 64 ∧
      (palRB.Pairwise fun a b => a.index < b.index) ∧
      palRB.get? 0 = some redEntry ∧ palRB.get? 1 = some blueEntry) ∧
      det_px_col blueEntry.index palRB = some blueEntry.color :=
  ⟨⟨by norm_num [palRB],
    by simp [palRB, List.pairwise_cons, redEntry, blueEntry], rfl, rfl⟩,
   det_px_col_boundary_exact palRB 0 redEntry blueEntry
     (by norm_num [palRB])
     (by simp [palRB, List.pairwise_cons, redEntry, blueEntry]) rfl rfl
     (by norm_num [blueEntry]) (by norm_num [blueEntry])
     (by norm_num [blueEntry])⟩
